import Mathlib

/-!
Verification of the numeric core of the rune-time calculator.

The development shallowly embeds the JavaScript source in Lean 4:

* JavaScript numbers are modelled by exact rationals (`ℚ`); the special
  values `Infinity`, `-Infinity` and `NaN`, which the source only ever
  inspects through `isFinite` and comparisons, are modelled by the
  dedicated constructors of `JSVal`.  `Option ℚ` encodes a number that
  may be `Infinity` (`none`) in the simulator result.
* JavaScript built-ins (`trim`, `toLowerCase`, `parseFloat`, the
  number-to-string conversions, `Math.pow`, object property assignment,
  `Array.prototype.sort`) are modelled by the executable functions of the
  first section; `Math.pow` is kept as an explicit function parameter of
  the simulator because no claim depends on its value.
* Each source function is translated line by line; the two versions of
  the input parser (v1.0.5 and v1.8.0) are translated separately in the
  namespaces `V105` and `V180`.
-/

set_option maxRecDepth 20000
set_option maxHeartbeats 4000000

namespace RuneCalc

attribute [local semireducible] Rat.add Rat.mul Rat.inv Rat.sub Rat.ofScientific

/-! ### Models of the JavaScript primitives used by the source -/

/-- A JavaScript value as consumed by the numeric helpers: a finite
number (an exact rational), one of the non-finite numbers, or a
non-number value. -/
inductive JSVal where
  | fin (q : ℚ)
  | posInf
  | negInf
  | nan
  | notNum
deriving DecidableEq

/-- Whitespace class of `trim` and of the regular-expression class `\s`
(ASCII range). -/
def isWsChar (c : Char) : Bool :=
  c = (' ') ∨ c = ('\t') ∨ c = ('\n') ∨ c = ('\r') ∨ c = ('\x0b') ∨ c = ('\x0c')

/-- Model of `String.prototype.trim`. -/
def jsTrim (s : String) : String :=
  String.mk (((s.data.dropWhile isWsChar).reverse.dropWhile isWsChar).reverse)

/-- ASCII lowercasing of one character, as done by `toLowerCase` on the
suffix alphabet `[A-Za-z]`. -/
def charToLowerJS (c : Char) : Char :=
  if ('A') ≤ c ∧ c ≤ ('Z') then Char.ofNat (c.toNat + 32) else c

/-- Model of `String.prototype.toLowerCase` (ASCII). -/
def strToLowerJS (s : String) : String :=
  String.mk (s.data.map charToLowerJS)

/-- Numeric value of a list of decimal digits. -/
def digitsVal (l : List Char) : ℕ :=
  l.foldl (fun a c => a * 10 + (c.toNat - 48)) 0

/-- Whether a character list is matched by the number group
`\d*\.?\d+` of the input regular expression: nonempty, only digits and
at most one dot, and ending in a digit. -/
def isNumToken (l : List Char) : Bool :=
  (!l.isEmpty) && l.all (fun c => c.isDigit || c == ('.')) &&
    decide ((l.filter (fun c => c == ('.'))).length ≤ 1) &&
    (match l.getLast? with
     | some c => c.isDigit
     | none => false)

/-- Exact decimal value of a token matched by `\d*\.?\d+`. -/
def decTokenVal (l : List Char) : ℚ :=
  let ip := l.takeWhile (fun c => c ≠ ('.'))
  let fp := (l.dropWhile (fun c => c ≠ ('.'))).drop 1
  (digitsVal ip : ℚ) + (digitsVal fp : ℚ) / 10 ^ fp.length

/-- Model of matching `^(\d*\.?\d+)\s*([a-zA-Z]+)$` against a string:
because the three groups draw from disjoint character classes, a match
is forced to split the string into a trailing run of letters, a run of
whitespace before it, and a leading number token.  Returns the numeric
value of the first group (the effect of `parseFloat` on it) and the
suffix group. -/
def splitNumSuffix (s : String) : Option (ℚ × String) :=
  let rev := s.data.reverse
  let alphaRev := rev.takeWhile Char.isAlpha
  let rest := (rev.dropWhile Char.isAlpha).dropWhile isWsChar
  let numTok := rest.reverse
  if alphaRev ≠ [] ∧ isNumToken numTok then
    some (decTokenVal numTok, String.mk alphaRev.reverse)
  else none

/-- Exponent-part parser used by the `parseFloat` model: an optional
sign followed by at least one digit; anything else contributes
exponent `0`, as `parseFloat` stops at the longest numeric prefix. -/
def parseExpPart (l : List Char) : ℤ :=
  let (sgn, l1) : ℤ × List Char :=
    match l with
    | ('-') :: t => (-1, t)
    | ('+') :: t => (1, t)
    | _ => (1, l)
  let ds := l1.takeWhile Char.isDigit
  if ds = [] then 0 else sgn * (digitsVal ds : ℤ)

/-- Model of the numeric-literal fragment of `parseFloat`: skip leading
whitespace, read an optional sign, a decimal significand and an
optional exponent, ignore any trailing characters, and return `none`
for `NaN` (no digits found).  The `Infinity` keyword lies outside the
rational value domain of this model and no analysed code path depends
on it. -/
def jsParseFloat (s : String) : Option ℚ :=
  let l := s.data.dropWhile isWsChar
  let (sgn, l1) : ℚ × List Char :=
    match l with
    | ('-') :: t => (-1, t)
    | ('+') :: t => (1, t)
    | _ => (1, l)
  let intD := l1.takeWhile Char.isDigit
  let l2 := l1.dropWhile Char.isDigit
  let (fracD, l3) : List Char × List Char :=
    match l2 with
    | ('.') :: t => (t.takeWhile Char.isDigit, t.dropWhile Char.isDigit)
    | _ => ([], l2)
  if intD = [] ∧ fracD = [] then none
  else
    let mant : ℚ := (digitsVal intD : ℚ) + (digitsVal fracD : ℚ) / 10 ^ fracD.length
    let expVal : ℤ :=
      match l3 with
      | ('e') :: t => parseExpPart t
      | ('E') :: t => parseExpPart t
      | _ => 0
    some (sgn * mant * 10 ^ expVal)

/-- Truncation toward zero, the rounding used by the `%` operator of
JavaScript. -/
def jsTrunc (q : ℚ) : ℤ :=
  if q < 0 then -⌊-q⌋ else ⌊q⌋

/-- Model of the JavaScript remainder operator `%` on numbers. -/
def jsMod (a b : ℚ) : ℚ :=
  a - b * (jsTrunc (a / b) : ℚ)

/-- Number of digits of a natural number minus one, computed with
explicit fuel so that it is structurally recursive. -/
def log10Nat : ℕ → ℕ → ℕ
  | 0, _ => 0
  | Nat.succ fuel, n => if n < 10 then 0 else log10Nat fuel (n / 10) + 1

/-- Fuel-bounded search for the least `k ≥ 1` with `q * 10 ^ k ≥ 1`,
used for the base-10 exponent of a rational in `(0, 1)`. -/
def negExpSearch : ℕ → ℚ → ℕ
  | 0, _ => 1
  | Nat.succ fuel, q => if 1 ≤ q * 10 then 1 else negExpSearch fuel (q * 10) + 1

/-- Base-10 exponent of a positive rational: the `e` with
`10 ^ e ≤ q < 10 ^ (e + 1)`. -/
def floorLog10 (q : ℚ) : ℤ :=
  if 1 ≤ q then (log10Nat ⌊q⌋.toNat ⌊q⌋.toNat : ℤ)
  else -(negExpSearch q.den q : ℤ)

/-- Rounding of a positive rational to three significant decimal
digits, with ties away from zero, following the digit-selection rule of
`Number.prototype.toPrecision`. -/
def sig3Pos (q : ℚ) : ℚ :=
  let e := floorLog10 q
  let u : ℚ := 10 ^ (e - 2)
  (⌊q / u + 1 / 2⌋ : ℚ) * u

/-- Rounding of a rational to three significant decimal digits.  This
is the numeric effect of `parseFloat(x.toPrecision(3))`. -/
def sig3 (q : ℚ) : ℚ :=
  if q = 0 then 0
  else if q < 0 then -(sig3Pos (-q)) else sig3Pos q

/-- Printing of a natural number in decimal. -/
def natStr (n : ℕ) : String := toString n

/-- Decimal rendering of a positive rational `q` such that
`q * 10 ^ k` is an integer, with `k ≥ 1` decimal places implied by the
denominator. -/
def decStrOfPos (q : ℚ) (k : ℕ) : String :=
  let n : ℕ := (q * 10 ^ k).num.toNat
  let s := natStr n
  if s.length ≤ k then
    ("0.") ++ String.mk (List.replicate (k - s.length) ('0')) ++ s
  else
    String.mk (s.data.take (s.length - k)) ++ (".") ++ String.mk (s.data.drop (s.length - k))

/-- Multiplicity of a prime `p` in `d`, with explicit fuel. -/
def multiplicityOf (p : ℕ) : ℕ → ℕ → ℕ
  | 0, _ => 0
  | Nat.succ fuel, d => if 2 ≤ p ∧ 0 < d ∧ d % p = 0 then multiplicityOf p fuel (d / p) + 1 else 0

/-- For a denominator of the form `2 ^ a * 5 ^ b`, the least number of
decimal places of the exact decimal expansion; `none` when the
expansion does not terminate. -/
def decExpLen (d : ℕ) : Option ℕ :=
  let a := multiplicityOf 2 d d
  let r1 := d / 2 ^ a
  let b := multiplicityOf 5 r1 r1
  let r2 := r1 / 5 ^ b
  if r2 = 1 then some (max a b) else none

/-- Strips trailing zeros, and then a trailing dot, from a decimal
string; used only on the non-terminating approximation path of the
number printer. -/
def stripTrailingZeros (s : String) : String :=
  let t := (s.data.reverse.dropWhile (fun c => c = ('0'))).reverse
  let t2 := if t.getLast? = some ('.') then t.dropLast else t
  String.mk t2

/-- Seventeen-significant-digit decimal approximation used by the
number printer for rationals without a terminating decimal expansion
(the JavaScript double would print its shortest round-tripping
decimal; no analysed code path reaches this case). -/
def approxStr (q : ℚ) (e : ℤ) : String :=
  let j : ℕ := (16 - e).toNat
  let n : ℕ := ⌊q * 10 ^ j + 1 / 2⌋.toNat
  if j = 0 then natStr n else stripTrailingZeros (decStrOfPos ((n : ℚ) / 10 ^ j) j)

/-- Plain-decimal or terminating rendering of a positive rational in
the non-exponential range of the JavaScript number printer. -/
def plainStrPos (q : ℚ) (e : ℤ) : String :=
  if q.den = 1 then natStr q.num.toNat
  else
    match decExpLen q.den with
    | some k => decStrOfPos q k
    | none => approxStr q e

/-- Printing of a positive rational following the JavaScript
`Number`-to-`String` conversion: exponential notation outside
`[1e-6, 1e21)`, plain decimal notation inside. -/
def numToStringPos (q : ℚ) : String :=
  let e := floorLog10 q
  if 21 ≤ e then
    plainStrPos (q / 10 ^ e) 0 ++ ("e+") ++ natStr e.toNat
  else if e ≤ -7 then
    plainStrPos (q * 10 ^ (-e).toNat) 0 ++ ("e-") ++ natStr (-e).toNat
  else plainStrPos q e

/-- Model of the JavaScript `Number`-to-`String` conversion (template
literal interpolation and `toString`) for rational values. -/
def numToString (q : ℚ) : String :=
  if q = 0 then ("0")
  else if q < 0 then ("-") ++ numToStringPos (-q)
  else numToStringPos q

/-- Model of `Number.prototype.toPrecision(3)`: the sign, the three
significant digits of the rounded magnitude, and fixed or exponential
notation according to the rounded exponent. -/
def toPrecision3Str (q : ℚ) : String :=
  if q = 0 then ("0.00")
  else
    let sgn : String := if q < 0 then ("-") else ("")
    let r := sig3Pos |q|
    let e2 := floorLog10 r
    let n3 : ℕ := (r / 10 ^ (e2 - 2)).num.toNat
    let ds := (natStr n3).data
    if e2 < -6 ∨ 3 ≤ e2 then
      sgn ++ String.mk (ds.take 1) ++ (".") ++ String.mk (ds.drop 1) ++
        (if e2 < 0 then ("e-") else ("e+")) ++ natStr e2.natAbs
    else if 0 ≤ e2 then
      if e2 = 2 then sgn ++ String.mk ds
      else sgn ++ String.mk (ds.take (e2.toNat + 1)) ++ (".") ++ String.mk (ds.drop (e2.toNat + 1))
    else
      sgn ++ ("0.") ++ String.mk (List.replicate ((-e2).toNat - 1) ('0')) ++ String.mk ds

/-! ### Shared data shapes -/

/-- Result of one call to the input parser. -/
structure ParsedValue where
  value : ℚ
  warning : Option String
deriving DecidableEq

/-- Model of assigning to a property of a JavaScript object viewed as
an association list in key-insertion order: a later assignment to an
existing key overwrites its value in place. -/
def assocSet (m : List (String × ℚ)) (k : String) (v : ℚ) : List (String × ℚ) :=
  if m.any (fun p => p.1 == k) then m.map (fun p => if p.1 == k then (k, v) else p)
  else m ++ [(k, v)]

/-- Lookup of a property in an object modelled as an association
list. -/
def lookupScale (t : List (String × ℚ)) (k : String) : Option ℚ :=
  (t.find? (fun p => p.1 == k)).map Prod.snd

/-- Truthiness of an optional numeric property: absent and zero values
are falsy. -/
def truthyQ : Option ℚ → Bool
  | some m => m ≠ 0
  | none => false

/-- Model of adding an element to a JavaScript `Set` kept as a list in
insertion order. -/
def setAdd (s : List String) (x : String) : List String :=
  if s.contains x then s else s ++ [x]

/-- One insertion step of a stable descending sort by magnitude,
modelling `Array.prototype.sort` with comparator `(b, a) => b - a`. -/
def insertMagDesc (p : String × ℚ) : List (String × ℚ) → List (String × ℚ)
  | [] => [p]
  | q :: t => if q.2 < p.2 then p :: q :: t else q :: insertMagDesc p t

/-- Stable descending sort of scale entries by magnitude. -/
def sortByMagDesc (l : List (String × ℚ)) : List (String × ℚ) :=
  l.foldr insertMagDesc []

/-- Warning text produced for an ambiguous suffix. -/
def warnAmbiguous (scalePart options : String) : String :=
  ("Warning: \x27") ++ scalePart ++ ("\x27 is ambiguous. Use one of these case-sensitive options: ") ++
    options ++ (".")

/-! ### The scale table of `generateScaleMap` -/

/-- The map of short-scale abbreviations to magnitudes built by
`generateScaleMap`, as an association list in the key-insertion order
of the object literal. -/
def generateScaleMap : List (String × ℚ) := [
  ("", 1),
  ("Thousand", 1e3), ("Million", 1e6), ("Billion", 1e9), ("Trillion", 1e12), ("Quadrillion", 1e15),
  ("Quintillion", 1e18), ("Sextillion", 1e21), ("Septillion", 1e24), ("Octillion", 1e27), ("Nonillion", 1e30),
  ("Decillion", 1e33),
  ("K", 1e3), ("M", 1e6), ("B", 1e9), ("T", 1e12), ("Qd", 1e15), ("Qn", 1e18), ("Sx", 1e21), ("Sp", 1e24),
  ("Oc", 1e27), ("No", 1e30), ("De", 1e33),
  ("UDe", 1e36), ("DDe", 1e39), ("TDe", 1e42), ("QdDe", 1e45), ("QnDe", 1e48), ("SxDe", 1e51), ("SpDe", 1e54),
  ("OcDe", 1e57), ("NoDe", 1e60), ("Vt", 1e63),
  ("UVt", 1e66), ("DVt", 1e69), ("TVt", 1e72), ("QdVt", 1e75), ("QnVt", 1e78), ("SxVt", 1e81), ("SpVt", 1e84),
  ("OcVt", 1e87), ("NoVt", 1e90), ("Tg", 1e93),
  ("UTg", 1e96), ("DTg", 1e99), ("TTg", 1e102), ("QdTg", 1e105), ("QnTg", 1e108), ("SxTg", 1e111), ("SpTg", 1e114),
  ("OcTg", 1e117), ("NoTg", 1e120), ("qg", 1e123),
  ("Uqg", 1e126), ("Dqg", 1e129), ("Tqg", 1e132), ("Qdqg", 1e135), ("Qnqg", 1e138), ("Sxqg", 1e141), ("Spqg", 1e144),
  ("Ocqg", 1e147), ("Noqg", 1e150), ("Qg", 1e153),
  ("UQg", 1e156), ("DQg", 1e159), ("TQg", 1e162), ("QdQg", 1e165), ("QnQg", 1e168), ("SxQg", 1e171), ("SpQg", 1e174),
  ("OcQg", 1e177), ("NoQg", 1e180), ("sg", 1e183),
  ("Usg", 1e186), ("Dsg", 1e189), ("Tsg", 1e192), ("Qdsg", 1e195), ("Qnsg", 1e198), ("Sxsg", 1e201), ("Spsg", 1e204),
  ("Ocsg", 1e207), ("Nosg", 1e210), ("Sg", 1e213),
  ("USg", 1e216), ("DSg", 1e219), ("TSg", 1e222), ("QdSg", 1e225), ("QnSg", 1e228), ("SxSg", 1e231), ("SpSg", 1e234),
  ("OcSg", 1e237), ("NoSg", 1e240), ("Og", 1e243),
  ("UOg", 1e246), ("DOg", 1e249), ("TOg", 1e252), ("QdOg", 1e255), ("QnOg", 1e258), ("SxOg", 1e261), ("SpOg", 1e264),
  ("OcOg", 1e267), ("NoOg", 1e270), ("Ng", 1e273),
  ("UNg", 1e276), ("DNg", 1e279), ("TNg", 1e282), ("QdNg", 1e285), ("QnNg", 1e288), ("SxNg", 1e291), ("SpNg", 1e294),
  ("OcNg", 1e297), ("NoNg", 1e300), ("Ce", 1e303),
  ("UCe", 1e306), ("DCe", 1e309), ("TCe", 1e312), ("QdCe", 1e315), ("QnCe", 1e318), ("SxCe", 1e321), ("SpCe", 1e324),
  ("OcCe", 1e327), ("NoCe", 1e330), ("DeCe", 1e333), ("UDeCe", 1e336), ("DDeCe", 1e339), ("TDeCe", 1e342),
  ("QdDeCe", 1e345), ("QnDeCe", 1e348), ("SxDeCe", 1e351), ("SpDeCe", 1e354), ("OcDeCe", 1e357), ("NoDeCe", 1e360),
  ("VtCe", 1e363), ("UVtCe", 1e366), ("DVtCe", 1e369), ("TVtCe", 1e372), ("QdVtCe", 1e375), ("QnVtCe", 1e378),
  ("SxVtCe", 1e381), ("SpVtCe", 1e384), ("OcVtCe", 1e387), ("NoVtCe", 1e390), ("TgCe", 1e393), ("UTgCe", 1e396),
  ("DTgCe", 1e399), ("TTgCe", 1e402), ("QdTgCe", 1e405), ("QnTgCe", 1e408), ("SxTgCe", 1e411), ("SpTgCe", 1e414),
  ("OcTgCe", 1e417), ("NoTgCe", 1e420), ("qgCe", 1e423), ("UqgCe", 1e426), ("DqgCe", 1e429), ("TqgCe", 1e432),
  ("QdqgCe", 1e435), ("QnqgCe", 1e438), ("SxqgCe", 1e441), ("SpqgCe", 1e444), ("OcqgCe", 1e447), ("NoqgCe", 1e450),
  ("QgCe", 1e453), ("UQgCe", 1e456), ("DQgCe", 1e459), ("TQgCe", 1e462), ("QdQgCe", 1e465), ("QnQgCe", 1e468),
  ("SxQgCe", 1e471), ("SpQgCe", 1e474), ("OcQgCe", 1e477), ("NoQgCe", 1e480), ("sgCe", 1e483), ("UsgCe", 1e486),
  ("DsgCe", 1e489), ("TsgCe", 1e492), ("QdsgCe", 1e495), ("QnsgCe", 1e498), ("SxsgCe", 1e501), ("SpsgCe", 1e504),
  ("OcsgCe", 1e507), ("NosgCe", 1e510), ("SgCe", 1e513), ("USgCe", 1e516), ("DSgCe", 1e519), ("TSgCe", 1e522),
  ("QdSgCe", 1e525), ("QnSgCe", 1e528), ("SxSgCe", 1e531), ("SpSgCe", 1e534), ("OcSgCe", 1e537), ("NoSgCe", 1e540),
  ("OgCe", 1e543), ("UOgCe", 1e546), ("DOgCe", 1e549), ("TOgCe", 1e552), ("QdOgCe", 1e555), ("QnOgCe", 1e558),
  ("SxOgCe", 1e561), ("SpOgCe", 1e564), ("OcOgCe", 1e567), ("NoOgCe", 1e570), ("NgCe", 1e573), ("UNgCe", 1e576),
  ("DNgCe", 1e579), ("TNgCe", 1e582), ("QdNgCe", 1e585), ("QnNgCe", 1e588), ("SxNgCe", 1e591), ("SpNgCe", 1e594),
  ("OcNgCe", 1e597), ("NoNgCe", 1e600), ("Du", 1e603)]

/-! ### Version 1.0.5: module-level scale registry and parser -/

namespace V105

/-- The module-level constant `scale = generateScaleMap()`. -/
def scale : List (String × ℚ) := RuneCalc.generateScaleMap

/-- The module-level constant `scaleEntries`, the scale map sorted by
descending magnitude. -/
def scaleEntries : List (String × ℚ) := sortByMagDesc scale

/-- The module-level constant `lowerCaseScaleMap`, built by assigning
`acc[key.toLowerCase()] = scale[key]` over the keys in order. -/
def lowerCaseScaleMap : List (String × ℚ) :=
  scale.foldl (fun acc p => assocSet acc (strToLowerJS p.1) p.2) []

/-- The module-level constant `conflictingLowerCaseSuffixes`: the set
of lowercased keys already seen when reached again during the key
scan. -/
def conflictingLowerCaseSuffixes : List String :=
  (scale.foldl
    (fun (st : List String × List String) p =>
      let lowerKey := strToLowerJS p.1
      if st.1.contains lowerKey then (st.1, setAdd st.2 lowerKey)
      else (setAdd st.1 lowerKey, st.2))
    ([], [])).2

/-- The v1.0.5 `parseRpsInput`. -/
def parseRpsInput (input : String) : ParsedValue :=
  if input = ("") then ⟨0, none⟩
  else
    let cleanedInput := jsTrim input
    let fallback : ParsedValue :=
      match jsParseFloat cleanedInput with
      | none => ⟨0, none⟩
      | some v => ⟨v, none⟩
    match splitNumSuffix cleanedInput with
    | none => fallback
    | some (numPart, scalePart) =>
      if truthyQ (lookupScale scale scalePart) then
        ⟨numPart * ((lookupScale scale scalePart).getD 0), none⟩
      else
        let lowerScalePart := strToLowerJS scalePart
        if conflictingLowerCaseSuffixes.contains lowerScalePart then
          let options := String.intercalate (", ")
            ((scale.map Prod.fst).filter (fun k => strToLowerJS k == lowerScalePart))
          ⟨0, some (warnAmbiguous scalePart options)⟩
        else if truthyQ (lookupScale lowerCaseScaleMap lowerScalePart) then
          ⟨numPart * ((lookupScale lowerCaseScaleMap lowerScalePart).getD 0), none⟩
        else fallback

end V105

/-! ### Version 1.8.0: scale utilities built from a fetched table -/

/-- The `scaleUtils` record memoised by the application from the
fetched `scales` object. -/
structure ScaleUtils where
  scales : List (String × ℚ)
  scaleEntries : List (String × ℚ)
  lowerCaseScaleMap : List (String × ℚ)
  conflictingLowerCaseSuffixes : List String
deriving DecidableEq

namespace V180

/-- Construction of `scaleUtils` from a loaded `scales` table,
following the `useMemo` body. -/
def mkScaleUtils (scales : List (String × ℚ)) : ScaleUtils where
  scales := scales
  scaleEntries := sortByMagDesc scales
  lowerCaseScaleMap := scales.foldl (fun acc p => assocSet acc (strToLowerJS p.1) p.2) []
  conflictingLowerCaseSuffixes :=
    (scales.foldl
      (fun (st : List String × List String) p =>
        let lowerKey := strToLowerJS p.1
        if st.1.contains lowerKey then (st.1, setAdd st.2 lowerKey)
        else (setAdd st.1 lowerKey, st.2))
      ([], [])).2

/-- The v1.8.0 `parseRpsInput`, reading the registry from
`scaleUtils`. -/
def parseRpsInput (u : ScaleUtils) (input : String) : ParsedValue :=
  if input = ("") then ⟨0, none⟩
  else
    let cleanedInput := jsTrim input
    let fallback : ParsedValue :=
      match jsParseFloat cleanedInput with
      | none => ⟨0, none⟩
      | some v => ⟨v, none⟩
    match splitNumSuffix cleanedInput with
    | none => fallback
    | some (numPart, scalePart) =>
      if truthyQ (lookupScale u.scales scalePart) then
        ⟨numPart * ((lookupScale u.scales scalePart).getD 0), none⟩
      else
        let lowerScalePart := strToLowerJS scalePart
        if u.conflictingLowerCaseSuffixes.contains lowerScalePart then
          let options := String.intercalate (", ")
            ((u.scales.map Prod.fst).filter (fun k => strToLowerJS k == lowerScalePart))
          ⟨0, some (warnAmbiguous scalePart options)⟩
        else if truthyQ (lookupScale u.lowerCaseScaleMap lowerScalePart) then
          ⟨numPart * ((lookupScale u.lowerCaseScaleMap lowerScalePart).getD 0), none⟩
        else fallback

/-- Scan of the descending-sorted scale entries performed by
`formatNumber`: the first entry with positive magnitude not exceeding
the value renders it, and exhausting the table falls back to
`num.toPrecision(3)`. -/
def formatScan : List (String × ℚ) → ℚ → String
  | [], num => toPrecision3Str num
  | e :: rest, num =>
    if 0 < e.2 ∧ e.2 ≤ num then numToString (sig3 (num / e.2)) ++ (" ") ++ e.1
    else formatScan rest num

/-- The v1.8.0 `formatNumber`. -/
def formatNumber (u : ScaleUtils) (v : JSVal) : String :=
  match v with
  | .fin num =>
    if num < 1000 ∧ num.den = 1 then numToString num
    else formatScan u.scaleEntries num
  | _ => ("0")

end V180

/-! ### The duration formatter `formatTime` (v1.8.0) -/

/-- The fixed list of placeholder strings returned for durations beyond
one hundred years. -/
def foreverQuotes : List String :=
  [("Heat death of the universe"), ("Basically forever"), ("Just don\x27t even try"),
   ("An eternity or two"), ("Beyond comprehension")]

/-- The unit table of `formatTime`. -/
def timeUnits : List (String × ℚ) :=
  [("year", 31536000), ("day", 86400), ("hour", 3600), ("minute", 60), ("second", 1)]

/-- Rendering of one collected part, from the template
on `count` and the unit label with plural suffix for counts above
one. -/
def renderUnit (count : ℤ) (label : String) : String :=
  numToString (count : ℚ) ++ (" ") ++ label ++ (if 1 < count then ("s") else (""))

/-- The unit loop of `formatTime`: for each unit in order, when the
remaining seconds reach the unit size, push the rendered floored count
and keep the remainder. -/
def timeParts : ℚ → List (String × ℚ) → List String
  | _, [] => []
  | remaining, u :: rest =>
    if u.2 ≤ remaining then
      renderUnit ⌊remaining / u.2⌋ u.1 :: timeParts (jsMod remaining u.2) rest
    else timeParts remaining rest

/-- The v1.8.0 `formatTime`.  The index `pick` injects the value of
`Math.floor(Math.random() * foreverQuotes.length)` used by the
hundred-year branch. -/
def formatTime (pick : ℕ) (t : JSVal) : String :=
  match t with
  | .fin q =>
    if q < 0 then ("...")
    else if q < 1 then ("Instant")
    else if 100 * 31536000 < q then foreverQuotes.getD (pick % foreverQuotes.length) ("")
    else String.intercalate (", ") ((timeParts q timeUnits).take 3)
  | .negInf => ("...")
  | .posInf => ("...")
  | .nan => ("...")
  | .notNum => ("...")

/-! ### The compounding simulator `calculateCompoundingTime` -/

/-- One bonus record of a rune, with the fields read by the simulator.
A `value` of `none` models a non-numeric `bonus.value`; a `max` of
`none` models an absent cap. -/
structure Bonus where
  btype : String
  modifier : String
  value : Option ℚ
  isExponential : Bool
  isDualExponential : Bool
  max : Option ℚ
deriving DecidableEq

/-- A rune as consumed by the simulator: a numeric chance and a bonus
list. -/
structure Rune where
  chance : ℚ
  bonuses : List Bonus
deriving DecidableEq

/-- One trace-log line, identified by the data interpolated into the
pushed string: the rune index `count + 1`, the speed, bulk and rate at
the step, and the time computed for the step; or the error line pushed
on abort. -/
inductive TraceEntry where
  | step (idx : ℤ) (speed bulk rps time : ℚ)
  | error
deriving DecidableEq

/-- The record returned by `calculateCompoundingTime`; `totalTime` is
`none` when the source returns `Infinity`. -/
structure SimResult where
  totalTime : Option ℚ
  finalRps : ℚ
  traceLog : List TraceEntry
deriving DecidableEq

/-- The guarded push onto the trace log: an entry is appended only
while fewer than 200 entries are present. -/
def pushTrace (tr : List TraceEntry) (e : TraceEntry) : List TraceEntry :=
  if tr.length < 200 then tr ++ [e] else tr

/-- Application of one bonus to the pair (speed, bulk), following the
`forEach` body.  `jsPow` is the injected model of `Math.pow`. -/
def applyBonus (jsPow : ℚ → ℚ → ℚ) (count : ℤ) (sb : ℚ × ℚ) (b : Bonus) : ℚ × ℚ :=
  match b.value with
  | none => sb
  | some value =>
    if b.btype = ("runeSpeed") then
      if b.modifier = ("additive") then (sb.1 + value, sb.2)
      else if b.modifier = ("multiplier") then
        if b.isExponential ∨ b.isDualExponential then (sb.1 * value, sb.2)
        else
          let linear := value - 1
          let multBefore := 1 + (count : ℚ) * linear
          let multAfter := 1 + ((count : ℚ) + 1) * linear
          let multBefore2 := if truthyQ b.max then min multBefore (b.max.getD 0) else multBefore
          let multAfter2 := if truthyQ b.max then min multAfter (b.max.getD 0) else multAfter
          if 0 < multBefore2 ∧ multBefore2 ≠ multAfter2 then
            (sb.1 * (multAfter2 / multBefore2), sb.2)
          else sb
      else if b.modifier = ("power") then (jsPow sb.1 value, sb.2)
      else sb
    else if b.btype = ("runeBulk") then
      if b.modifier = ("additive") then (sb.1, sb.2 + value)
      else if b.modifier = ("multiplier") then
        if b.isExponential ∨ b.isDualExponential then (sb.1, sb.2 * value)
        else
          let linear := value - 1
          let multBefore := 1 + (count : ℚ) * linear
          let multAfter := 1 + ((count : ℚ) + 1) * linear
          let multBefore2 := if truthyQ b.max then min multBefore (b.max.getD 0) else multBefore
          let multAfter2 := if truthyQ b.max then min multAfter (b.max.getD 0) else multAfter
          if 0 < multBefore2 ∧ multBefore2 ≠ multAfter2 then
            (sb.1, sb.2 * (multAfter2 / multBefore2))
          else sb
      else if b.modifier = ("power") then (sb.1, jsPow sb.2 value)
      else sb
    else sb

/-- The iteration of `calculateCompoundingTime`, running on the
remaining number of loop steps with the current loop counter. -/
def simLoop (jsPow : ℚ → ℚ → ℚ) (rune : Rune) :
    ℕ → ℤ → ℚ → ℚ → ℚ → List TraceEntry → SimResult
  | 0, _, speed, bulk, acc, tr => ⟨some acc, speed * bulk, tr⟩
  | Nat.succ fuel, count, speed, bulk, acc, tr =>
    let currentRps := speed * bulk
    if currentRps ≤ 0 then ⟨none, 0, [TraceEntry.error]⟩
    else
      let timeForNextRune := rune.chance / currentRps
      let tr2 := pushTrace tr (TraceEntry.step (count + 1) speed bulk currentRps timeForNextRune)
      let sb2 := rune.bonuses.foldl (applyBonus jsPow count) (speed, bulk)
      simLoop jsPow rune fuel (count + 1) sb2.1 sb2.2 (acc + timeForNextRune) tr2

/-- The simulator `calculateCompoundingTime`.  The first guard models
the `!rune || !rune.bonuses` check on a missing rune; the injected
formatters of the source only shape the pushed strings, whose data is
carried by `TraceEntry`. -/
def calculateCompoundingTime (jsPow : ℚ → ℚ → ℚ) (rune? : Option Rune)
    (startCount endCount : ℤ) (initialSpeed initialBulk : ℚ) : SimResult :=
  match rune? with
  | none => ⟨none, 0, []⟩
  | some rune =>
    simLoop jsPow rune (endCount - startCount).toNat startCount initialSpeed initialBulk 0 []

/-! ### Test fixtures: concrete tables, runes and a `Math.pow` instance -/

/-- The scale utilities the application builds when the fetched table
equals the one hard-coded by `generateScaleMap`. -/
def appScaleUtils : ScaleUtils := V180.mkScaleUtils generateScaleMap

/-- The three-entry example registry used to exercise the formatter. -/
def exampleRegistry : List (String × ℚ) := [("", 1), ("K", 1e3), ("M", 1e6)]

/-- Scale utilities over the example registry. -/
def exampleUtils : ScaleUtils := V180.mkScaleUtils exampleRegistry

/-- A concrete instance of the injected `Math.pow` model, for closed
statements. -/
def jsPowZero : ℚ → ℚ → ℚ := fun _ _ => 0

/-- A rune with numeric chance and no bonuses. -/
def noBonusRune : Rune := ⟨1e12, []⟩

/-- A rune whose additive speed bonus drives the rate negative after
one acquisition. -/
def negAdditiveRune : Rune :=
  ⟨1, [⟨("runeSpeed"), ("additive"), some (-2), false, false, none⟩]⟩

/-- A non-exponential multiplier bonus on rune speed with the given
magnitude and cap. -/
def speedMultBonus (m c : ℚ) : Bonus :=
  ⟨("runeSpeed"), ("multiplier"), some m, false, false, some c⟩

/-! ### Claim C10: the two parser versions agree -/

/-- Raw-table component of the utilities built over the legacy
table. -/
theorem mkScaleUtils_scale_scales :
    (V180.mkScaleUtils V105.scale).scales = V105.scale := rfl

/-- Lowercase-map component of the utilities built over the legacy
table. -/
theorem mkScaleUtils_scale_lower :
    (V180.mkScaleUtils V105.scale).lowerCaseScaleMap = V105.lowerCaseScaleMap := rfl

/-- Conflict-set component of the utilities built over the legacy
table. -/
theorem mkScaleUtils_scale_confl :
    (V180.mkScaleUtils V105.scale).conflictingLowerCaseSuffixes =
      V105.conflictingLowerCaseSuffixes := by decide

/-- Claim C10: for every input string, the v1.0.5 parser and the
v1.8.0 parser built over the same suffix table return identical
results, warnings included. -/
theorem parsers_agree (input : String) :
    V180.parseRpsInput (V180.mkScaleUtils V105.scale) input = V105.parseRpsInput input := by
  simp only [V180.parseRpsInput, V105.parseRpsInput, mkScaleUtils_scale_scales,
    mkScaleUtils_scale_lower, mkScaleUtils_scale_confl]

/-! ### Claim C9: totality of the formatter and the parser -/

/-- Claim C9: `formatNumber` and `parseRpsInput` are total: every
input, including the empty string, non-numbers, `NaN`, infinities and
negative numbers, produces a result, with the non-finite and
non-number inputs formatted as `"0"` and the empty string parsed to
zero. -/
theorem format_parse_total :
    (∀ (u : ScaleUtils) (v : JSVal), ∃ s : String, V180.formatNumber u v = s) ∧
    (∀ (u : ScaleUtils) (input : String), ∃ p : ParsedValue, V180.parseRpsInput u input = p) ∧
    (∀ u : ScaleUtils, V180.formatNumber u JSVal.nan = ("0")) ∧
    (∀ u : ScaleUtils, V180.formatNumber u JSVal.posInf = ("0")) ∧
    (∀ u : ScaleUtils, V180.formatNumber u JSVal.negInf = ("0")) ∧
    (∀ u : ScaleUtils, V180.formatNumber u JSVal.notNum = ("0")) ∧
    (∀ u : ScaleUtils, V180.formatNumber u (JSVal.fin (-5)) = ("-5")) ∧
    (∀ u : ScaleUtils, V180.parseRpsInput u ("") = ⟨0, none⟩) := by
  refine ⟨fun u v => ⟨_, rfl⟩, fun u input => ⟨_, rfl⟩, fun u => rfl, fun u => rfl,
    fun u => rfl, fun u => rfl, fun u => ?_, fun u => rfl⟩
  rfl

/-! ### Claim C8: magnitudes of the built table -/

/-- Counterexample to claim C8: the suffixes `Thousand` and `K` are
distinct yet map to the same magnitude. -/
theorem scale_magnitudes_cex :
    lookupScale generateScaleMap ("Thousand") = some 1000 ∧
    lookupScale generateScaleMap ("K") = some 1000 ∧
    ("Thousand" : String) ≠ ("K") := by
  refine ⟨by decide, ?_, by decide⟩
  decide

/-- Claim C8 as amended: every magnitude in the table built at startup
is positive, but the magnitudes are not pairwise distinct. -/
theorem scale_magnitudes :
    (∀ p ∈ generateScaleMap, 0 < p.2) ∧ ¬ (generateScaleMap.map Prod.snd).Nodup := by
  constructor
  · decide
  · decide

/-- Witness for the positivity part of the amended claim C8 at one
table entry. -/
theorem scale_magnitudes_witness :
    (("K", (1e3 : ℚ)) ∈ generateScaleMap) ∧ (0 : ℚ) < (("K", (1e3 : ℚ)) : String × ℚ).2 :=
  ⟨by decide, scale_magnitudes.1 ("K", (1e3 : ℚ)) (by decide)⟩


/-! ### Claim C4: the trace log is bounded by 200 entries -/

/-- The guarded push preserves the 200-entry bound. -/
theorem pushTrace_length_le (tr : List TraceEntry) (e : TraceEntry)
    (h : tr.length ≤ 200) : (pushTrace tr e).length ≤ 200 := by
  unfold pushTrace
  split
  · simp only [List.length_append, List.length_singleton]
    omega
  · exact h

/-- The loop of the simulator keeps the trace-log length at most 200
whenever it starts from a trace at most that long. -/
theorem simLoop_trace_le (jsPow : ℚ → ℚ → ℚ) (rune : Rune) :
    ∀ (n : ℕ) (count : ℤ) (s b acc : ℚ) (tr : List TraceEntry), tr.length ≤ 200 →
      (simLoop jsPow rune n count s b acc tr).traceLog.length ≤ 200 := by
  intro n
  induction n with
  | zero => intro count s b acc tr h; exact h
  | succ n ih =>
    intro count s b acc tr h
    rw [simLoop]
    split
    · simp
    · exact ih _ _ _ _ _ (pushTrace_length_le _ _ h)

/-- Claim C4: every call to the simulator returns at most 200 trace
entries, and a step appends an entry only while fewer than 200 are
present. -/
theorem trace_bounded :
    (∀ (jsPow : ℚ → ℚ → ℚ) (rune? : Option Rune) (startCount endCount : ℤ) (s b : ℚ),
       (calculateCompoundingTime jsPow rune? startCount endCount s b).traceLog.length ≤ 200) ∧
    (∀ (tr : List TraceEntry) (e : TraceEntry), 200 ≤ tr.length → pushTrace tr e = tr) := by
  constructor
  · intro jsPow rune? startCount endCount s b
    match rune? with
    | none => simp [calculateCompoundingTime]
    | some rune => exact simLoop_trace_le jsPow rune _ _ _ _ _ _ (by simp)
  · intro tr e h
    unfold pushTrace
    rw [if_neg (by omega)]

/-- Witness for claim C4 at a 10,000-step request and a full trace. -/
theorem trace_bounded_witness :
    (calculateCompoundingTime jsPowZero (some noBonusRune) 0 10000 1 1).traceLog.length ≤ 200 ∧
    (200 ≤ (List.replicate 200 TraceEntry.error).length ∧
      pushTrace (List.replicate 200 TraceEntry.error) TraceEntry.error =
        List.replicate 200 TraceEntry.error) :=
  ⟨trace_bounded.1 jsPowZero (some noBonusRune) 0 10000 1 1,
    by simp, trace_bounded.2 (List.replicate 200 TraceEntry.error) TraceEntry.error (by simp)⟩

/-! ### Claim C3: behaviour on a non-positive rate -/

/-- State evolution of the simulator: the (speed, bulk) pair after `k`
iterations of bonus application starting at loop counter `count`. -/
def iterState (jsPow : ℚ → ℚ → ℚ) (rune : Rune) : ℤ → ℕ → ℚ × ℚ → ℚ × ℚ
  | _, 0, sb => sb
  | count, Nat.succ k, sb =>
    iterState jsPow rune (count + 1) k (rune.bonuses.foldl (applyBonus jsPow count) sb)

/-- The rate `speed * bulk` seen by the simulator at iteration `k`. -/
def rpsAt (jsPow : ℚ → ℚ → ℚ) (rune : Rune) (count : ℤ) (k : ℕ) (sb : ℚ × ℚ) : ℚ :=
  (iterState jsPow rune count k sb).1 * (iterState jsPow rune count k sb).2

/-- When some iteration within range sees a non-positive rate, the
loop returns an infinite total time, a zero final rate, and a trace
containing exactly the single error entry, whatever was accumulated
before. -/
theorem simLoop_abort (jsPow : ℚ → ℚ → ℚ) (rune : Rune) :
    ∀ (n : ℕ) (count : ℤ) (s b acc : ℚ) (tr : List TraceEntry),
      (∃ k < n, rpsAt jsPow rune count k (s, b) ≤ 0) →
      simLoop jsPow rune n count s b acc tr = ⟨none, 0, [TraceEntry.error]⟩ := by
  intro n
  induction n with
  | zero =>
    intro count s b acc tr h
    obtain ⟨k, hk, _⟩ := h
    omega
  | succ n ih =>
    intro count s b acc tr h
    rw [simLoop]
    split
    · rfl
    · rename_i hpos
      obtain ⟨k, hk, hle⟩ := h
      match k with
      | 0 => exact absurd hle (by simpa [rpsAt, iterState] using hpos)
      | Nat.succ j =>
        have hj : rpsAt jsPow rune (count + 1) j
            (rune.bonuses.foldl (applyBonus jsPow count) (s, b)) ≤ 0 := hle
        refine ih (count + 1) _ _ _ _ ⟨j, by omega, ?_⟩
        simpa using hj

/-- Claim C3 as amended: if the product `currentSpeed * currentBulk`
is non-positive at any iteration, the simulator returns an infinite
total time together with a trace consisting of exactly the single
error entry — the entries collected in earlier iterations are
discarded, and the trace is nonetheless non-empty. -/
theorem abort_yields_error_trace (jsPow : ℚ → ℚ → ℚ) (rune : Rune) (start : ℤ) (n : ℕ)
    (s b : ℚ) (h : ∃ k < n, rpsAt jsPow rune start k (s, b) ≤ 0) :
    calculateCompoundingTime jsPow (some rune) start (start + n) s b =
      ⟨none, 0, [TraceEntry.error]⟩ := by
  unfold calculateCompoundingTime
  have harg : (start + (n : ℤ) - start).toNat = n := by omega
  rw [harg]
  exact simLoop_abort jsPow rune n start s b 0 [] h

/-- Witness for the amended claim C3, on a rune whose additive bonus
turns the rate negative after the first acquisition. -/
theorem abort_yields_error_trace_witness :
    (∃ k < 2, rpsAt jsPowZero negAdditiveRune 0 k (1, 1) ≤ 0) ∧
    calculateCompoundingTime jsPowZero (some negAdditiveRune) 0 (0 + (2 : ℕ)) 1 1 =
      ⟨none, 0, [TraceEntry.error]⟩ :=
  have h : ∃ k < 2, rpsAt jsPowZero negAdditiveRune 0 k (1, 1) ≤ 0 :=
    ⟨1, by omega, by decide⟩
  ⟨h, abort_yields_error_trace jsPowZero negAdditiveRune 0 2 1 1 h⟩

/-- Counterexample to claim C3 as stated: on the same rune the first
iteration runs with positive rate and collects one step entry, yet the
aborted two-iteration run returns only the error entry rather than the
collected entry followed by the error entry. -/
theorem abort_trace_cex :
    calculateCompoundingTime jsPowZero (some negAdditiveRune) 0 2 1 1 =
      ⟨none, 0, [TraceEntry.error]⟩ ∧
    (calculateCompoundingTime jsPowZero (some negAdditiveRune) 0 1 1 1).traceLog =
      [TraceEntry.step 1 1 1 1 1] ∧
    (calculateCompoundingTime jsPowZero (some negAdditiveRune) 0 2 1 1).traceLog ≠
      (calculateCompoundingTime jsPowZero (some negAdditiveRune) 0 1 1 1).traceLog ++
        [TraceEntry.error] := by
  refine ⟨by decide, by decide, by decide⟩

/-! ### Claim C1: degeneration with an empty bonus list -/

/-- Closed form of the loop for a rune with no bonuses: the rate never
changes and each step adds `chance / rate`. -/
theorem simLoop_no_bonuses (jsPow : ℚ → ℚ → ℚ) (c s b : ℚ) (h : 0 < s * b) :
    ∀ (n : ℕ) (count : ℤ) (acc : ℚ) (tr : List TraceEntry),
      (simLoop jsPow ⟨c, []⟩ n count s b acc tr).totalTime = some (acc + n * (c / (s * b))) ∧
      (simLoop jsPow ⟨c, []⟩ n count s b acc tr).finalRps = s * b := by
  intro n
  induction n with
  | zero => intro count acc tr; simp [simLoop]
  | succ n ih =>
    intro count acc tr
    simp only [simLoop, List.foldl_nil, if_neg (not_le.mpr h)]
    refine ⟨?_, (ih (count + 1) (acc + c / (s * b)) _).2⟩
    rw [(ih (count + 1) (acc + c / (s * b)) _).1]
    congr 1
    push_cast
    ring

/-- Claim C1: with a numeric chance, an empty bonus list, `N > 0`
steps from count `0`, and a positive initial rate, the simulator
returns exactly `N * chance / (speed * bulk)` seconds and a final rate
of `speed * bulk`. -/
theorem no_bonus_degeneration (jsPow : ℚ → ℚ → ℚ) (c s b : ℚ) (N : ℕ)
    (hN : 0 < N) (hsb : 0 < s * b) :
    (calculateCompoundingTime jsPow (some ⟨c, []⟩) 0 N s b).totalTime =
      some ((N : ℚ) * c / (s * b)) ∧
    (calculateCompoundingTime jsPow (some ⟨c, []⟩) 0 N s b).finalRps = s * b := by
  unfold calculateCompoundingTime
  have harg : ((N : ℤ) - 0).toNat = N := by omega
  rw [harg]
  have := simLoop_no_bonuses jsPow c s b hsb N 0 0 []
  refine ⟨?_, this.2⟩
  rw [this.1]
  congr 1
  rw [zero_add, mul_div_assoc]

/-- Witness for claim C1 on the example scenario: chance `1e12`,
three acquisitions, rate `1e6`. -/
theorem no_bonus_degeneration_witness :
    0 < 3 ∧ (0 : ℚ) < 1e6 * 1 ∧
    (calculateCompoundingTime jsPowZero (some ⟨1e12, []⟩) 0 ((3 : ℕ) : ℤ) 1e6 1).totalTime =
      some (((3 : ℕ) : ℚ) * 1e12 / (1e6 * 1)) ∧
    (calculateCompoundingTime jsPowZero (some ⟨1e12, []⟩) 0 ((3 : ℕ) : ℤ) 1e6 1).finalRps =
      1e6 * 1 :=
  ⟨by omega, by norm_num,
    (no_bonus_degeneration jsPowZero 1e12 1e6 1 3 (by omega) (by norm_num)).1,
    (no_bonus_degeneration jsPowZero 1e12 1e6 1 3 (by omega) (by norm_num)).2⟩


/-! ### Claim C7: selection of the empty-suffix entry -/

/-- Appending the empty string to a string is the identity. -/
theorem str_append_empty (s : String) : s ++ ("") = s := by
  cases s with
  | mk l => exact congrArg String.mk (List.append_nil l)

/-- The entry scan of `formatNumber` returns the rendering of the
first matching entry of the table, and the precision fallback when no
entry matches. -/
theorem formatScan_eq_find (num : ℚ) : ∀ entries : List (String × ℚ),
    V180.formatScan entries num =
      (match entries.find? (fun p => decide (0 < p.2 ∧ p.2 ≤ num)) with
       | some p => numToString (sig3 (num / p.2)) ++ (" ") ++ p.1
       | none => toPrecision3Str num) := by
  intro entries
  induction entries with
  | nil => rfl
  | cons e rest ih =>
    by_cases h : 0 < e.2 ∧ e.2 ≤ num
    · rw [V180.formatScan, if_pos h, List.find?_cons_of_pos _ (by simpa using h)]
    · rw [V180.formatScan, if_neg h, List.find?_cons_of_neg _ (by simpa using h), ih]

/-- Claim C7 as amended: when the value is finite, misses the small
integer fast path, and the scan selects the empty-suffix entry of
magnitude one, `formatNumber` returns the three-significant-digit
rounding of the value followed by a trailing space: the space
separator is appended even though the suffix is empty. -/
theorem empty_suffix_trailing_space (u : ScaleUtils) (v : ℚ)
    (hfast : ¬ (v < 1000 ∧ v.den = 1))
    (hsel : u.scaleEntries.find? (fun p => decide (0 < p.2 ∧ p.2 ≤ v)) = some ("", 1)) :
    V180.formatNumber u (JSVal.fin v) = numToString (sig3 v) ++ (" ") := by
  show (if v < 1000 ∧ v.den = 1 then numToString v else V180.formatScan u.scaleEntries v) = _
  rw [if_neg hfast, formatScan_eq_find, hsel]
  dsimp only
  rw [div_one, str_append_empty]

/-- Counterexample to claim C7 as stated: over the example registry
the value `1.5` selects the empty-suffix entry yet is formatted with a
trailing space, not as a bare number. -/
theorem empty_suffix_cex :
    V180.formatNumber exampleUtils (JSVal.fin (3 / 2)) = ("1.5 ") ∧
    ("1.5 " : String) ≠ ("1.5") := by
  exact ⟨by decide, by decide⟩

/-- Witness for the amended claim C7 at the value `1.5` over the
example registry. -/
theorem empty_suffix_trailing_space_witness :
    (¬ ((3 : ℚ) / 2 < 1000 ∧ ((3 : ℚ) / 2).den = 1)) ∧
    exampleUtils.scaleEntries.find? (fun p => decide (0 < p.2 ∧ p.2 ≤ (3 : ℚ) / 2)) =
      some ("", 1) ∧
    V180.formatNumber exampleUtils (JSVal.fin ((3 : ℚ) / 2)) = numToString (sig3 ((3 : ℚ) / 2)) ++ (" ") :=
  ⟨by decide, by decide, empty_suffix_trailing_space exampleUtils (3 / 2) (by decide) (by decide)⟩

/-! ### Claim C6: duration decomposition -/

/-- On non-negative operands the JavaScript remainder agrees with the
floor-based remainder. -/
theorem jsMod_eq_sub_floor (r s : ℚ) (hr : 0 ≤ r) (hs : 0 < s) :
    jsMod r s = r - s * ⌊r / s⌋ := by
  unfold jsMod jsTrunc
  rw [if_neg (not_lt.mpr (div_nonneg hr hs.le))]

/-- The remainder of non-negative by positive is non-negative. -/
theorem jsMod_nonneg (r s : ℚ) (hr : 0 ≤ r) (hs : 0 < s) : 0 ≤ jsMod r s := by
  rw [jsMod_eq_sub_floor r s hr hs]
  have h1 : (⌊r / s⌋ : ℚ) ≤ r / s := Int.floor_le _
  have h2 : s * (⌊r / s⌋ : ℚ) ≤ s * (r / s) := mul_le_mul_of_nonneg_left h1 hs.le
  have h3 : s * (r / s) = r := by field_simp
  linarith

/-- The floored quotient of non-negative by positive vanishes exactly
when the dividend is below the divisor. -/
theorem floor_div_eq_zero_iff (r s : ℚ) (hr : 0 ≤ r) (hs : 0 < s) :
    ⌊r / s⌋ = 0 ↔ r < s := by
  rw [Int.floor_eq_zero_iff]
  constructor
  · intro h
    have := h.2
    rwa [div_lt_one hs] at this
  · intro h
    exact ⟨div_nonneg hr hs.le, (div_lt_one hs).mpr h⟩

/-- One step of the unit loop of `formatTime`, expressed through the
floored count and the remainder. -/
theorem timeParts_cons (r : ℚ) (l : String) (s : ℚ) (rest : List (String × ℚ))
    (hs : 0 < s) (hr : 0 ≤ r) :
    timeParts r ((l, s) :: rest) =
      (if ⌊r / s⌋ = 0 then [] else [renderUnit ⌊r / s⌋ l]) ++ timeParts (jsMod r s) rest := by
  rw [timeParts]
  dsimp only
  by_cases h : s ≤ r
  · rw [if_pos h, if_neg]
    · rfl
    · intro hzero
      exact absurd ((floor_div_eq_zero_iff r s hr hs).mp hzero) (not_lt.mpr h)
  · push_neg at h
    rw [if_neg (not_le.mpr h), if_pos ((floor_div_eq_zero_iff r s hr hs).mpr h)]
    have hmod : jsMod r s = r := by
      rw [jsMod_eq_sub_floor r s hr hs, (floor_div_eq_zero_iff r s hr hs).mpr h]
      push_cast
      ring
    rw [hmod, List.nil_append]


/-- General decomposition computed by `formatTime` between one second
and one hundred years: greedy floored counts against the fixed unit
sizes, keeping non-zero units only, joined after taking the first
three. -/
theorem formatTime_decompose (pick : ℕ) (t : ℚ) (h1 : 1 ≤ t) (h2 : t ≤ 100 * 31536000) :
    formatTime pick (JSVal.fin t) = String.intercalate (", ") (List.take 3 (
      (if ⌊t / 31536000⌋ = 0 then [] else [renderUnit ⌊t / 31536000⌋ ("year")]) ++
      ((if ⌊jsMod t 31536000 / 86400⌋ = 0 then [] else
          [renderUnit ⌊jsMod t 31536000 / 86400⌋ ("day")]) ++
      ((if ⌊jsMod (jsMod t 31536000) 86400 / 3600⌋ = 0 then [] else
          [renderUnit ⌊jsMod (jsMod t 31536000) 86400 / 3600⌋ ("hour")]) ++
      ((if ⌊jsMod (jsMod (jsMod t 31536000) 86400) 3600 / 60⌋ = 0 then [] else
          [renderUnit ⌊jsMod (jsMod (jsMod t 31536000) 86400) 3600 / 60⌋ ("minute")]) ++
      ((if ⌊jsMod (jsMod (jsMod (jsMod t 31536000) 86400) 3600) 60 / 1⌋ = 0 then [] else
          [renderUnit ⌊jsMod (jsMod (jsMod (jsMod t 31536000) 86400) 3600) 60 / 1⌋ ("second")]) ++
        []))))))  := by
  have ht0 : (0 : ℚ) ≤ t := le_trans zero_le_one h1
  have hm1 : (0 : ℚ) ≤ jsMod t 31536000 := jsMod_nonneg _ _ ht0 (by norm_num)
  have hm2 : (0 : ℚ) ≤ jsMod (jsMod t 31536000) 86400 := jsMod_nonneg _ _ hm1 (by norm_num)
  have hm3 : (0 : ℚ) ≤ jsMod (jsMod (jsMod t 31536000) 86400) 3600 := jsMod_nonneg _ _ hm2 (by norm_num)
  have hm4 : (0 : ℚ) ≤ jsMod (jsMod (jsMod (jsMod t 31536000) 86400) 3600) 60 :=
    jsMod_nonneg _ _ hm3 (by norm_num)
  simp only [formatTime]
  rw [if_neg (by linarith), if_neg (not_lt.mpr h1), if_neg (not_lt.mpr h2)]
  unfold timeUnits
  rw [timeParts_cons t ("year") 31536000 _ (by norm_num) ht0,
    timeParts_cons _ ("day") 86400 _ (by norm_num) hm1,
    timeParts_cons _ ("hour") 3600 _ (by norm_num) hm2,
    timeParts_cons _ ("minute") 60 _ (by norm_num) hm3,
    timeParts_cons _ ("second") 1 _ (by norm_num) hm4]
  rw [timeParts]

/-- Claim C6 as amended: `formatTime` decomposes any duration between
one second and one hundred years greedily into years, days, hours,
minutes and seconds over a 31,536,000-second year, joins the first
three non-zero units comma-separated with pluralised unit names, and
in particular maps 3,000,000 seconds to "34 days, 17 hours, 20
minutes". -/
theorem duration_decomposition :
    (∀ (pick : ℕ) (t : ℚ), 1 ≤ t → t ≤ 100 * 31536000 →
      formatTime pick (JSVal.fin t) = String.intercalate (", ") (List.take 3 (
        (if ⌊t / 31536000⌋ = 0 then [] else [renderUnit ⌊t / 31536000⌋ ("year")]) ++
        ((if ⌊jsMod t 31536000 / 86400⌋ = 0 then [] else
            [renderUnit ⌊jsMod t 31536000 / 86400⌋ ("day")]) ++
        ((if ⌊jsMod (jsMod t 31536000) 86400 / 3600⌋ = 0 then [] else
            [renderUnit ⌊jsMod (jsMod t 31536000) 86400 / 3600⌋ ("hour")]) ++
        ((if ⌊jsMod (jsMod (jsMod t 31536000) 86400) 3600 / 60⌋ = 0 then [] else
            [renderUnit ⌊jsMod (jsMod (jsMod t 31536000) 86400) 3600 / 60⌋ ("minute")]) ++
        ((if ⌊jsMod (jsMod (jsMod (jsMod t 31536000) 86400) 3600) 60 / 1⌋ = 0 then [] else
            [renderUnit ⌊jsMod (jsMod (jsMod (jsMod t 31536000) 86400) 3600) 60 / 1⌋ ("second")]) ++
          []))))))) ∧
    (∀ pick : ℕ, formatTime pick (JSVal.fin 3000000) = ("34 days, 17 hours, 20 minutes")) := by
  refine ⟨formatTime_decompose, fun pick => ?_⟩
  rw [formatTime_decompose pick 3000000 (by norm_num) (by norm_num)]
  decide

/-- Witness for the amended claim C6 at 3,000,000 seconds. -/
theorem duration_decomposition_witness :
    (1 : ℚ) ≤ 3000000 ∧ (3000000 : ℚ) ≤ 100 * 31536000 ∧
    formatTime 0 (JSVal.fin 3000000) = ("34 days, 17 hours, 20 minutes") := by
  refine ⟨by norm_num, by norm_num, ?_⟩
  rw [duration_decomposition.1 0 3000000 (by norm_num) (by norm_num)]
  decide

/-- Counterexample to claim C6 as stated: the decomposition of
3,000,000 seconds names twenty minutes, not forty-six. -/
theorem duration_example_cex :
    formatTime 0 (JSVal.fin 3000000) = ("34 days, 17 hours, 20 minutes") ∧
    ("34 days, 17 hours, 20 minutes" : String) ≠ ("34 days, 17 hours, 46 minutes") := by
  exact ⟨by decide, by decide⟩


/-! ### Claim C5: case-sensitive lookup and ambiguity detection -/

/-- Membership in the set-list insertion. -/
theorem mem_setAdd (s : List String) (x y : String) : y ∈ setAdd s x ↔ y ∈ s ∨ y = x := by
  unfold setAdd
  split
  · rename_i h
    have hx : x ∈ s := List.elem_iff.mp h
    constructor
    · exact Or.inl
    · intro hor
      rcases hor with h2 | h2
      · exact h2
      · rw [h2]; exact hx
  · simp [List.mem_append]

/-- Invariant of the conflict-detection fold: starting from the pair
(`seen`, `confl`), a lowercase form ends in the second component
exactly when it was already conflicting, or was seen before and occurs
once more, or occurs at least twice among the remaining keys; it ends
in the first component exactly when seen before or occurring. -/
theorem confl_fold_spec (x : String) : ∀ (T : List (String × ℚ)) (seen confl : List String),
    (x ∈ (T.foldl
        (fun (st : List String × List String) p =>
          let lowerKey := strToLowerJS p.1
          if st.1.contains lowerKey then (st.1, setAdd st.2 lowerKey)
          else (setAdd st.1 lowerKey, st.2))
        (seen, confl)).2 ↔
      x ∈ confl ∨
        (x ∈ seen ∧ 1 ≤ ((T.map Prod.fst).filter (fun k => strToLowerJS k == x)).length) ∨
        2 ≤ ((T.map Prod.fst).filter (fun k => strToLowerJS k == x)).length) ∧
    (x ∈ (T.foldl
        (fun (st : List String × List String) p =>
          let lowerKey := strToLowerJS p.1
          if st.1.contains lowerKey then (st.1, setAdd st.2 lowerKey)
          else (setAdd st.1 lowerKey, st.2))
        (seen, confl)).1 ↔
      x ∈ seen ∨ 1 ≤ ((T.map Prod.fst).filter (fun k => strToLowerJS k == x)).length) := by
  intro T
  induction T with
  | nil => intro seen confl; simp
  | cons p T ih =>
    intro seen confl
    simp only [List.foldl_cons, List.map_cons, List.filter_cons]
    by_cases hx : strToLowerJS p.1 = x
    · simp only [hx, beq_self_eq_true, if_pos, List.length_cons]
      by_cases hc : seen.contains x = true
      · have hcm : x ∈ seen := List.elem_iff.mp hc
        rw [if_pos hc]
        constructor
        · rw [(ih seen (setAdd confl x)).1, mem_setAdd]
          constructor
          · intro h
            rcases h with (h | h) | h | h
            · exact Or.inl h
            · exact Or.inr (Or.inl ⟨hcm, by omega⟩)
            · exact Or.inr (Or.inl ⟨h.1, by omega⟩)
            · exact Or.inr (Or.inr (by omega))
          · intro h
            rcases h with h | h | h
            · exact Or.inl (Or.inl h)
            · exact Or.inl (Or.inr rfl)
            · exact Or.inl (Or.inr rfl)
        · rw [(ih seen (setAdd confl x)).2]
          constructor
          · intro h
            rcases h with h | h
            · exact Or.inl h
            · exact Or.inl hcm
          · intro h
            rcases h with h | h
            · exact Or.inl h
            · exact Or.inl hcm
      · have hcm : x ∉ seen := fun hmem => hc (List.elem_eq_true_of_mem hmem)
        rw [if_neg hc]
        constructor
        · rw [(ih (setAdd seen x) confl).1, mem_setAdd]
          constructor
          · intro h
            rcases h with h | h | h
            · exact Or.inl h
            · rcases h.1 with h2 | _
              · exact absurd h2 hcm
              · exact Or.inr (Or.inr (by omega))
            · exact Or.inr (Or.inr (by omega))
          · intro h
            rcases h with h | h | h
            · exact Or.inl h
            · exact absurd h.1 hcm
            · have h2 : 1 ≤ ((T.map Prod.fst).filter (fun k => strToLowerJS k == x)).length := by
                omega
              exact Or.inr (Or.inl ⟨Or.inr rfl, h2⟩)
        · rw [(ih (setAdd seen x) confl).2, mem_setAdd]
          constructor
          · intro _
            exact Or.inr (by omega)
          · intro _
            exact Or.inl (Or.inr rfl)
    · have hxb : (strToLowerJS p.1 == x) = false := by
        exact beq_eq_false_iff_ne.mpr hx
      simp only [hxb, if_neg, Bool.false_eq_true, not_false_iff, ite_false]
      by_cases hc : seen.contains (strToLowerJS p.1) = true
      · rw [if_pos hc]
        constructor
        · rw [(ih seen (setAdd confl (strToLowerJS p.1))).1, mem_setAdd]
          constructor
          · intro h
            rcases h with (h | h) | h
            · exact Or.inl h
            · exact absurd h.symm hx
            · exact Or.inr h
          · intro h
            rcases h with h | h
            · exact Or.inl (Or.inl h)
            · exact Or.inr h
        · exact (ih seen (setAdd confl (strToLowerJS p.1))).2
      · rw [if_neg hc]
        constructor
        · rw [(ih (setAdd seen (strToLowerJS p.1)) confl).1]
          constructor
          · intro h
            rcases h with h | h | h
            · exact Or.inl h
            · rcases (mem_setAdd _ _ _).mp h.1 with h2 | h2
              · exact Or.inr (Or.inl ⟨h2, h.2⟩)
              · exact absurd h2.symm hx
            · exact Or.inr (Or.inr h)
          · intro h
            rcases h with h | h | h
            · exact Or.inl h
            · exact Or.inr (Or.inl ⟨(mem_setAdd _ _ _).mpr (Or.inl h.1), h.2⟩)
            · exact Or.inr (Or.inr h)
        · rw [(ih (setAdd seen (strToLowerJS p.1)) confl).2, mem_setAdd]
          constructor
          · intro h
            rcases h with (h | h) | h
            · exact Or.inl h
            · exact absurd h.symm hx
            · exact Or.inr h
          · intro h
            rcases h with h | h
            · exact Or.inl (Or.inl h)
            · exact Or.inr h


/-- A lowercase form is flagged as conflicting exactly when at least
two table suffixes share it. -/
theorem mem_conflicting_count (T : List (String × ℚ)) (x : String) :
    x ∈ (V180.mkScaleUtils T).conflictingLowerCaseSuffixes ↔
      2 ≤ ((T.map Prod.fst).filter (fun k => strToLowerJS k == x)).length := by
  have h := (confl_fold_spec x T [] []).1
  simp only [List.not_mem_nil, false_and, false_or] at h
  exact h

/-- Claim C5: over the hard-coded table, `parse("5Tqg")` and
`parse("5TQg")` resolve case-sensitively with no warning while
`parse("5tQg")` yields zero and the warning listing `Tqg, TQg`; in
general an exact-case suffix with truthy magnitude takes priority, and
a suffix failing the exact lookup whose lowercase form is shared by at
least two table suffixes yields zero and the enumerating warning. -/
theorem suffix_lookup_priority_and_ambiguity :
    (V180.parseRpsInput appScaleUtils ("5Tqg") = ⟨5 * 10 ^ 132, none⟩) ∧
    (V180.parseRpsInput appScaleUtils ("5TQg") = ⟨5 * 10 ^ 162, none⟩) ∧
    (V180.parseRpsInput appScaleUtils ("5tQg") =
      ⟨0, some (warnAmbiguous ("tQg") ("Tqg, TQg"))⟩) ∧
    (∀ (T : List (String × ℚ)) (input : String) (n : ℚ) (sfx : String) (m : ℚ),
      splitNumSuffix (jsTrim input) = some (n, sfx) →
      lookupScale T sfx = some m → m ≠ 0 →
      V180.parseRpsInput (V180.mkScaleUtils T) input = ⟨n * m, none⟩) ∧
    (∀ (T : List (String × ℚ)) (input : String) (n : ℚ) (sfx : String),
      splitNumSuffix (jsTrim input) = some (n, sfx) →
      truthyQ (lookupScale T sfx) = false →
      2 ≤ ((T.map Prod.fst).filter (fun k => strToLowerJS k == strToLowerJS sfx)).length →
      V180.parseRpsInput (V180.mkScaleUtils T) input =
        ⟨0, some (warnAmbiguous sfx (String.intercalate (", ")
          ((T.map Prod.fst).filter (fun k => strToLowerJS k == strToLowerJS sfx))))⟩) := by
  refine ⟨by decide, by decide, by decide, ?_, ?_⟩
  · intro T input n sfx m hsplit hlook hm
    have hne : input ≠ ("") := by
      intro he
      rw [he] at hsplit
      have hnone : splitNumSuffix (jsTrim ("")) = none := by decide
      rw [hnone] at hsplit
      exact Option.noConfusion hsplit
    have hscales : (V180.mkScaleUtils T).scales = T := rfl
    simp only [V180.parseRpsInput]
    rw [if_neg hne, hsplit]
    dsimp only
    rw [hscales, hlook]
    simp only [truthyQ, ne_eq, decide_not, Option.getD_some]
    rw [if_pos (by simp [hm])]
  · intro T input n sfx hsplit htr hcount
    have hne : input ≠ ("") := by
      intro he
      rw [he] at hsplit
      have hnone : splitNumSuffix (jsTrim ("")) = none := by decide
      rw [hnone] at hsplit
      exact Option.noConfusion hsplit
    have hscales : (V180.mkScaleUtils T).scales = T := rfl
    have hmem : strToLowerJS sfx ∈ (V180.mkScaleUtils T).conflictingLowerCaseSuffixes :=
      (mem_conflicting_count T (strToLowerJS sfx)).mpr hcount
    have hcont : (V180.mkScaleUtils T).conflictingLowerCaseSuffixes.contains
        (strToLowerJS sfx) = true := List.elem_eq_true_of_mem hmem
    simp only [V180.parseRpsInput]
    rw [if_neg hne, hsplit]
    dsimp only
    rw [hscales, htr]
    rw [if_neg (by simp), if_pos hcont]

/-- Witness for the general parts of claim C5 on small tables. -/
theorem suffix_lookup_priority_and_ambiguity_witness :
    (splitNumSuffix (jsTrim ("2K")) = some (2, ("K")) ∧
      lookupScale [(("K"), (1000 : ℚ))] ("K") = some 1000 ∧ (1000 : ℚ) ≠ 0 ∧
      V180.parseRpsInput (V180.mkScaleUtils [(("K"), 1000)]) ("2K") = ⟨2 * 1000, none⟩) ∧
    (splitNumSuffix (jsTrim ("1aB")) = some (1, ("aB")) ∧
      truthyQ (lookupScale [(("Ab"), 10), (("AB"), 100)] ("aB")) = false ∧
      2 ≤ (([(("Ab"), (10 : ℚ)), (("AB"), 100)].map Prod.fst).filter
        (fun k => strToLowerJS k == strToLowerJS ("aB"))).length ∧
      V180.parseRpsInput (V180.mkScaleUtils [(("Ab"), 10), (("AB"), 100)]) ("1aB") =
        ⟨0, some (warnAmbiguous ("aB") (String.intercalate (", ")
          (([(("Ab"), (10 : ℚ)), (("AB"), 100)].map Prod.fst).filter
            (fun k => strToLowerJS k == strToLowerJS ("aB")))))⟩) :=
  ⟨⟨by decide, by decide, by decide,
      suffix_lookup_priority_and_ambiguity.2.2.2.1 [(("K"), 1000)] ("2K") 2 ("K") 1000
        (by decide) (by decide) (by decide)⟩,
    ⟨by decide, by decide, by decide,
      suffix_lookup_priority_and_ambiguity.2.2.2.2 [(("Ab"), 10), (("AB"), 100)] ("1aB") 1 ("aB")
        (by decide) (by decide) (by decide)⟩⟩


/-! ### Claim C2: the capped linear multiplier bonus -/

/-- The clamped accumulating multiplier of a capped linear bonus at a
given acquisition count, as computed by the simulator before and after
a step. -/
def cappedMult (m c : ℚ) (j : ℤ) : ℚ := min (1 + (j : ℚ) * (m - 1)) c

/-- A non-exponential multiplier bonus on rune bulk with the given
magnitude and cap, mirroring `speedMultBonus`. -/
def bulkMultBonus (m c : ℚ) : Bonus :=
  ⟨("runeBulk"), ("multiplier"), some m, false, false, some c⟩

/-- Reduction of one bonus application for a non-exponential
`runeSpeed` multiplier whose cap is truthy (`c ≠ 0`, as a zero cap is
skipped by the `if (bonus.max)` check of the source). -/
theorem applyBonus_speedMult (jsPow : ℚ → ℚ → ℚ) (count : ℤ) (s b m c : ℚ) (hc0 : c ≠ 0) :
    applyBonus jsPow count (s, b) (speedMultBonus m c) =
      (if 0 < min (1 + (count : ℚ) * (m - 1)) c ∧
          min (1 + (count : ℚ) * (m - 1)) c ≠ min (1 + ((count : ℚ) + 1) * (m - 1)) c
       then (s * (min (1 + ((count : ℚ) + 1) * (m - 1)) c / min (1 + (count : ℚ) * (m - 1)) c), b)
       else (s, b)) := by
  have htr : truthyQ (some c) = true := by simp [truthyQ, hc0]
  unfold applyBonus speedMultBonus
  dsimp only
  rw [if_pos rfl, if_neg (by decide), if_pos rfl, if_neg (by simp)]
  simp only [if_pos htr, Option.getD_some]

/-- Reduction of one bonus application for a non-exponential
`runeBulk` multiplier whose cap is truthy, mirroring the duplicated
bulk branch of the source. -/
theorem applyBonus_bulkMult (jsPow : ℚ → ℚ → ℚ) (count : ℤ) (s b m c : ℚ) (hc0 : c ≠ 0) :
    applyBonus jsPow count (s, b) (bulkMultBonus m c) =
      (if 0 < min (1 + (count : ℚ) * (m - 1)) c ∧
          min (1 + (count : ℚ) * (m - 1)) c ≠ min (1 + ((count : ℚ) + 1) * (m - 1)) c
       then (s, b * (min (1 + ((count : ℚ) + 1) * (m - 1)) c / min (1 + (count : ℚ) * (m - 1)) c))
       else (s, b)) := by
  have htr : truthyQ (some c) = true := by simp [truthyQ, hc0]
  unfold applyBonus bulkMultBonus
  dsimp only
  rw [if_neg (by decide), if_pos rfl, if_neg (by decide), if_pos rfl, if_neg (by simp)]
  simp only [if_pos htr, Option.getD_some]

/-- The clamped multiplier one count later, with the cast pushed
through. -/
theorem cappedMult_succ (m c : ℚ) (count : ℤ) :
    cappedMult m c (count + 1) = min (1 + ((count : ℚ) + 1) * (m - 1)) c := by
  unfold cappedMult
  push_cast
  ring_nf

/-- Division-free form of the speed update of one step of the capped
multiplier bonus, assuming only that the clamped multiplier before the
step is positive. -/
theorem stepSpeed_mul (jsPow : ℚ → ℚ → ℚ) (count : ℤ) (s b m c : ℚ)
    (hc0 : c ≠ 0) (hpos : 0 < cappedMult m c count) :
    (applyBonus jsPow count (s, b) (speedMultBonus m c)).1 * cappedMult m c count
      = s * cappedMult m c (count + 1) ∧
    (applyBonus jsPow count (s, b) (speedMultBonus m c)).2 = b := by
  rw [applyBonus_speedMult jsPow count s b m c hc0]
  have hg : cappedMult m c count = min (1 + (count : ℚ) * (m - 1)) c := rfl
  have hg1 := cappedMult_succ m c count
  have hpos2 : 0 < min (1 + (count : ℚ) * (m - 1)) c := by
    rw [← hg]
    exact hpos
  by_cases h : 0 < min (1 + (count : ℚ) * (m - 1)) c ∧
      min (1 + (count : ℚ) * (m - 1)) c ≠ min (1 + ((count : ℚ) + 1) * (m - 1)) c
  · rw [if_pos h]
    refine ⟨?_, rfl⟩
    rw [hg, hg1, mul_assoc, div_mul_cancel₀ _ (ne_of_gt hpos2)]
  · rw [if_neg h]
    refine ⟨?_, rfl⟩
    have heq : min (1 + (count : ℚ) * (m - 1)) c = min (1 + ((count : ℚ) + 1) * (m - 1)) c := by
      by_contra hne
      exact h ⟨hpos2, hne⟩
    rw [hg, hg1, ← heq]

/-- Division-free form of the bulk update of one step of the capped
multiplier bonus, assuming only that the clamped multiplier before the
step is positive. -/
theorem stepBulk_mul (jsPow : ℚ → ℚ → ℚ) (count : ℤ) (s b m c : ℚ)
    (hc0 : c ≠ 0) (hpos : 0 < cappedMult m c count) :
    (applyBonus jsPow count (s, b) (bulkMultBonus m c)).2 * cappedMult m c count
      = b * cappedMult m c (count + 1) ∧
    (applyBonus jsPow count (s, b) (bulkMultBonus m c)).1 = s := by
  rw [applyBonus_bulkMult jsPow count s b m c hc0]
  have hg : cappedMult m c count = min (1 + (count : ℚ) * (m - 1)) c := rfl
  have hg1 := cappedMult_succ m c count
  have hpos2 : 0 < min (1 + (count : ℚ) * (m - 1)) c := by
    rw [← hg]
    exact hpos
  by_cases h : 0 < min (1 + (count : ℚ) * (m - 1)) c ∧
      min (1 + (count : ℚ) * (m - 1)) c ≠ min (1 + ((count : ℚ) + 1) * (m - 1)) c
  · rw [if_pos h]
    refine ⟨?_, rfl⟩
    rw [hg, hg1, mul_assoc, div_mul_cancel₀ _ (ne_of_gt hpos2)]
  · rw [if_neg h]
    refine ⟨?_, rfl⟩
    have heq : min (1 + (count : ℚ) * (m - 1)) c = min (1 + ((count : ℚ) + 1) * (m - 1)) c := by
      by_contra hne
      exact h ⟨hpos2, hne⟩
    rw [hg, hg1, ← heq]

/-- Closed form for the final rate of the simulator on a single
capped-multiplier speed bonus, multiplied through by the clamped
multiplier at the starting count, on any range where the clamped
multipliers stay positive. -/
theorem simLoop_speedMult (jsPow : ℚ → ℚ → ℚ) (m c : ℚ) (hc0 : c ≠ 0) (cch b : ℚ) :
    ∀ (n k : ℕ) (s acc : ℚ) (tr : List TraceEntry), 0 < s * b →
      (∀ j : ℕ, j ≤ n → 0 < cappedMult m c ((k : ℤ) + (j : ℤ))) →
      (simLoop jsPow ⟨cch, [speedMultBonus m c]⟩ n (k : ℤ) s b acc tr).finalRps *
          cappedMult m c (k : ℤ)
        = (s * b) * cappedMult m c ((k : ℤ) + (n : ℤ)) := by
  intro n
  induction n with
  | zero =>
    intro k s acc tr hpos hall
    simp [simLoop]
  | succ n ih =>
    intro k s acc tr hpos hall
    simp only [simLoop, if_neg (not_le.mpr hpos), List.foldl_cons, List.foldl_nil]
    have hg0 : 0 < cappedMult m c (k : ℤ) := by
      have h := hall 0 (by omega)
      simpa using h
    have hg1 : 0 < cappedMult m c ((k : ℤ) + 1) := by
      have h := hall 1 (by omega)
      simpa using h
    have hstep := stepSpeed_mul jsPow (k : ℤ) s b m c hc0 hg0
    rw [hstep.2]
    have hApos : 0 < (applyBonus jsPow (k : ℤ) (s, b) (speedMultBonus m c)).1 * b := by
      have h1 : (applyBonus jsPow (k : ℤ) (s, b) (speedMultBonus m c)).1 * b *
          cappedMult m c (k : ℤ) = (s * b) * cappedMult m c ((k : ℤ) + 1) := by
        calc (applyBonus jsPow (k : ℤ) (s, b) (speedMultBonus m c)).1 * b *
              cappedMult m c (k : ℤ)
            = (applyBonus jsPow (k : ℤ) (s, b) (speedMultBonus m c)).1 *
                cappedMult m c (k : ℤ) * b := by ring
          _ = s * cappedMult m c ((k : ℤ) + 1) * b := by rw [hstep.1]
          _ = (s * b) * cappedMult m c ((k : ℤ) + 1) := by ring
      nlinarith [mul_pos hpos hg1]
    have hall2 : ∀ j : ℕ, j ≤ n → 0 < cappedMult m c (((k + 1 : ℕ) : ℤ) + (j : ℤ)) := by
      intro j hj
      have h := hall (j + 1) (by omega)
      rw [show ((k + 1 : ℕ) : ℤ) + (j : ℤ) = (k : ℤ) + ((j + 1 : ℕ) : ℤ) from by push_cast; ring]
      exact h
    have hrec := ih (k + 1) (applyBonus jsPow (k : ℤ) (s, b) (speedMultBonus m c)).1
      (acc + cch / (s * b))
      (pushTrace tr (TraceEntry.step ((k : ℤ) + 1) s b (s * b) (cch / (s * b)))) hApos hall2
    rw [show ((k + 1 : ℕ) : ℤ) = (k : ℤ) + 1 from by push_cast; ring] at hrec
    rw [show (k : ℤ) + ((n + 1 : ℕ) : ℤ) = ((k : ℤ) + 1) + (n : ℤ) from by push_cast; ring]
    apply mul_left_cancel₀ (ne_of_gt hg1)
    calc cappedMult m c ((k : ℤ) + 1) *
          ((simLoop jsPow ⟨cch, [speedMultBonus m c]⟩ n ((k : ℤ) + 1)
              (applyBonus jsPow (k : ℤ) (s, b) (speedMultBonus m c)).1 b
              (acc + cch / (s * b))
              (pushTrace tr (TraceEntry.step ((k : ℤ) + 1) s b (s * b) (cch / (s * b))))).finalRps *
            cappedMult m c (k : ℤ))
        = (simLoop jsPow ⟨cch, [speedMultBonus m c]⟩ n ((k : ℤ) + 1)
              (applyBonus jsPow (k : ℤ) (s, b) (speedMultBonus m c)).1 b
              (acc + cch / (s * b))
              (pushTrace tr (TraceEntry.step ((k : ℤ) + 1) s b (s * b) (cch / (s * b))))).finalRps *
            cappedMult m c ((k : ℤ) + 1) * cappedMult m c (k : ℤ) := by ring
      _ = (applyBonus jsPow (k : ℤ) (s, b) (speedMultBonus m c)).1 * b *
            cappedMult m c (((k : ℤ) + 1) + (n : ℤ)) * cappedMult m c (k : ℤ) := by rw [hrec]
      _ = (applyBonus jsPow (k : ℤ) (s, b) (speedMultBonus m c)).1 * cappedMult m c (k : ℤ) *
            b * cappedMult m c (((k : ℤ) + 1) + (n : ℤ)) := by ring
      _ = s * cappedMult m c ((k : ℤ) + 1) * b * cappedMult m c (((k : ℤ) + 1) + (n : ℤ)) := by
          rw [hstep.1]
      _ = cappedMult m c ((k : ℤ) + 1) *
            (s * b * cappedMult m c (((k : ℤ) + 1) + (n : ℤ))) := by ring

/-- Closed form for the final rate of the simulator on a single
capped-multiplier bulk bonus, multiplied through by the clamped
multiplier at the starting count, on any range where the clamped
multipliers stay positive. -/
theorem simLoop_bulkMult (jsPow : ℚ → ℚ → ℚ) (m c : ℚ) (hc0 : c ≠ 0) (cch s : ℚ) :
    ∀ (n k : ℕ) (bk acc : ℚ) (tr : List TraceEntry), 0 < s * bk →
      (∀ j : ℕ, j ≤ n → 0 < cappedMult m c ((k : ℤ) + (j : ℤ))) →
      (simLoop jsPow ⟨cch, [bulkMultBonus m c]⟩ n (k : ℤ) s bk acc tr).finalRps *
          cappedMult m c (k : ℤ)
        = (s * bk) * cappedMult m c ((k : ℤ) + (n : ℤ)) := by
  intro n
  induction n with
  | zero =>
    intro k bk acc tr hpos hall
    simp [simLoop]
  | succ n ih =>
    intro k bk acc tr hpos hall
    simp only [simLoop, if_neg (not_le.mpr hpos), List.foldl_cons, List.foldl_nil]
    have hg0 : 0 < cappedMult m c (k : ℤ) := by
      have h := hall 0 (by omega)
      simpa using h
    have hg1 : 0 < cappedMult m c ((k : ℤ) + 1) := by
      have h := hall 1 (by omega)
      simpa using h
    have hstep := stepBulk_mul jsPow (k : ℤ) s bk m c hc0 hg0
    rw [hstep.2]
    have hApos : 0 < s * (applyBonus jsPow (k : ℤ) (s, bk) (bulkMultBonus m c)).2 := by
      have h1 : s * (applyBonus jsPow (k : ℤ) (s, bk) (bulkMultBonus m c)).2 *
          cappedMult m c (k : ℤ) = (s * bk) * cappedMult m c ((k : ℤ) + 1) := by
        calc s * (applyBonus jsPow (k : ℤ) (s, bk) (bulkMultBonus m c)).2 *
              cappedMult m c (k : ℤ)
            = s * ((applyBonus jsPow (k : ℤ) (s, bk) (bulkMultBonus m c)).2 *
                cappedMult m c (k : ℤ)) := by ring
          _ = s * (bk * cappedMult m c ((k : ℤ) + 1)) := by rw [hstep.1]
          _ = (s * bk) * cappedMult m c ((k : ℤ) + 1) := by ring
      nlinarith [mul_pos hpos hg1]
    have hall2 : ∀ j : ℕ, j ≤ n → 0 < cappedMult m c (((k + 1 : ℕ) : ℤ) + (j : ℤ)) := by
      intro j hj
      have h := hall (j + 1) (by omega)
      rw [show ((k + 1 : ℕ) : ℤ) + (j : ℤ) = (k : ℤ) + ((j + 1 : ℕ) : ℤ) from by push_cast; ring]
      exact h
    have hrec := ih (k + 1) (applyBonus jsPow (k : ℤ) (s, bk) (bulkMultBonus m c)).2
      (acc + cch / (s * bk))
      (pushTrace tr (TraceEntry.step ((k : ℤ) + 1) s bk (s * bk) (cch / (s * bk)))) hApos hall2
    rw [show ((k + 1 : ℕ) : ℤ) = (k : ℤ) + 1 from by push_cast; ring] at hrec
    rw [show (k : ℤ) + ((n + 1 : ℕ) : ℤ) = ((k : ℤ) + 1) + (n : ℤ) from by push_cast; ring]
    apply mul_left_cancel₀ (ne_of_gt hg1)
    calc cappedMult m c ((k : ℤ) + 1) *
          ((simLoop jsPow ⟨cch, [bulkMultBonus m c]⟩ n ((k : ℤ) + 1) s
              (applyBonus jsPow (k : ℤ) (s, bk) (bulkMultBonus m c)).2
              (acc + cch / (s * bk))
              (pushTrace tr (TraceEntry.step ((k : ℤ) + 1) s bk (s * bk) (cch / (s * bk))))).finalRps *
            cappedMult m c (k : ℤ))
        = (simLoop jsPow ⟨cch, [bulkMultBonus m c]⟩ n ((k : ℤ) + 1) s
              (applyBonus jsPow (k : ℤ) (s, bk) (bulkMultBonus m c)).2
              (acc + cch / (s * bk))
              (pushTrace tr (TraceEntry.step ((k : ℤ) + 1) s bk (s * bk) (cch / (s * bk))))).finalRps *
            cappedMult m c ((k : ℤ) + 1) * cappedMult m c (k : ℤ) := by ring
      _ = s * (applyBonus jsPow (k : ℤ) (s, bk) (bulkMultBonus m c)).2 *
            cappedMult m c (((k : ℤ) + 1) + (n : ℤ)) * cappedMult m c (k : ℤ) := by rw [hrec]
      _ = s * ((applyBonus jsPow (k : ℤ) (s, bk) (bulkMultBonus m c)).2 *
            cappedMult m c (k : ℤ)) * cappedMult m c (((k : ℤ) + 1) + (n : ℤ)) := by ring
      _ = s * (bk * cappedMult m c ((k : ℤ) + 1)) * cappedMult m c (((k : ℤ) + 1) + (n : ℤ)) := by
          rw [hstep.1]
      _ = cappedMult m c ((k : ℤ) + 1) *
            (s * bk * cappedMult m c (((k : ℤ) + 1) + (n : ℤ))) := by ring

/-- Claim C2: for a non-exponential multiplier bonus of magnitude `m`
and truthy cap `c` (a zero cap is falsy and skips clamping) targeting
rune speed or rune bulk, each step multiplies the targeted rate by the
ratio of the clamped multipliers after and before the step, applied
only when the denominator is positive and the clamped values differ; a
step whose clamped values before and after both equal the cap leaves
the pair unchanged; and over `n` steps from count zero on which the
clamped multipliers stay positive, the final rate times the initial
clamped multiplier equals the initial rate times the clamped
multiplier at `n`, which never exceeds the cap. -/
theorem capped_multiplier (jsPow : ℚ → ℚ → ℚ) (m c : ℚ) (hc0 : c ≠ 0) :
    (∀ (count : ℤ) (s b : ℚ),
       applyBonus jsPow count (s, b) (speedMultBonus m c) =
         (if 0 < cappedMult m c count ∧ cappedMult m c count ≠ cappedMult m c (count + 1)
          then s * (cappedMult m c (count + 1) / cappedMult m c count) else s, b)) ∧
    (∀ (count : ℤ) (s b : ℚ),
       applyBonus jsPow count (s, b) (bulkMultBonus m c) =
         (s, if 0 < cappedMult m c count ∧ cappedMult m c count ≠ cappedMult m c (count + 1)
          then b * (cappedMult m c (count + 1) / cappedMult m c count) else b)) ∧
    (∀ (count : ℤ) (s b : ℚ), cappedMult m c count = c → cappedMult m c (count + 1) = c →
       applyBonus jsPow count (s, b) (speedMultBonus m c) = (s, b)) ∧
    (∀ (count : ℤ) (s b : ℚ), cappedMult m c count = c → cappedMult m c (count + 1) = c →
       applyBonus jsPow count (s, b) (bulkMultBonus m c) = (s, b)) ∧
    (∀ (n : ℕ) (cch s b : ℚ), 0 < s * b → (∀ j : ℕ, j ≤ n → 0 < cappedMult m c (j : ℤ)) →
       (calculateCompoundingTime jsPow (some ⟨cch, [speedMultBonus m c]⟩) 0 n s b).finalRps *
           cappedMult m c 0
         = (s * b) * cappedMult m c (n : ℤ) ∧ cappedMult m c (n : ℤ) ≤ c) ∧
    (∀ (n : ℕ) (cch s b : ℚ), 0 < s * b → (∀ j : ℕ, j ≤ n → 0 < cappedMult m c (j : ℤ)) →
       (calculateCompoundingTime jsPow (some ⟨cch, [bulkMultBonus m c]⟩) 0 n s b).finalRps *
           cappedMult m c 0
         = (s * b) * cappedMult m c (n : ℤ) ∧ cappedMult m c (n : ℤ) ≤ c) := by
  refine ⟨?_, ?_, ?_, ?_, ?_, ?_⟩
  · intro count s b
    rw [applyBonus_speedMult jsPow count s b m c hc0]
    rw [show min (1 + (count : ℚ) * (m - 1)) c = cappedMult m c count from rfl]
    rw [← cappedMult_succ m c count]
    by_cases hcond : 0 < cappedMult m c count ∧ cappedMult m c count ≠ cappedMult m c (count + 1)
    · rw [if_pos hcond, if_pos hcond]
    · rw [if_neg hcond, if_neg hcond]
  · intro count s b
    rw [applyBonus_bulkMult jsPow count s b m c hc0]
    rw [show min (1 + (count : ℚ) * (m - 1)) c = cappedMult m c count from rfl]
    rw [← cappedMult_succ m c count]
    by_cases hcond : 0 < cappedMult m c count ∧ cappedMult m c count ≠ cappedMult m c (count + 1)
    · rw [if_pos hcond, if_pos hcond]
    · rw [if_neg hcond, if_neg hcond]
  · intro count s b h1 h2
    rw [applyBonus_speedMult jsPow count s b m c hc0]
    rw [show min (1 + (count : ℚ) * (m - 1)) c = cappedMult m c count from rfl]
    rw [← cappedMult_succ m c count]
    rw [if_neg]
    rintro ⟨-, hne⟩
    exact hne (h1.trans h2.symm)
  · intro count s b h1 h2
    rw [applyBonus_bulkMult jsPow count s b m c hc0]
    rw [show min (1 + (count : ℚ) * (m - 1)) c = cappedMult m c count from rfl]
    rw [← cappedMult_succ m c count]
    rw [if_neg]
    rintro ⟨-, hne⟩
    exact hne (h1.trans h2.symm)
  · intro n cch s b hsb hall
    have hall0 : ∀ j : ℕ, j ≤ n → 0 < cappedMult m c (((0 : ℕ) : ℤ) + (j : ℤ)) := by
      intro j hj
      simpa using hall j hj
    have h := simLoop_speedMult jsPow m c hc0 cch b n 0 s 0 [] hsb hall0
    simp only [Nat.cast_zero, zero_add] at h
    unfold calculateCompoundingTime
    rw [show (((n : ℕ) : ℤ) - 0).toNat = n from by omega]
    exact ⟨h, min_le_right _ _⟩
  · intro n cch s b hsb hall
    have hall0 : ∀ j : ℕ, j ≤ n → 0 < cappedMult m c (((0 : ℕ) : ℤ) + (j : ℤ)) := by
      intro j hj
      simpa using hall j hj
    have h := simLoop_bulkMult jsPow m c hc0 cch s n 0 b 0 [] hsb hall0
    simp only [Nat.cast_zero, zero_add] at h
    unfold calculateCompoundingTime
    rw [show (((n : ℕ) : ℤ) - 0).toNat = n from by omega]
    exact ⟨h, min_le_right _ _⟩

/-- Witness for claim C2 at magnitude `1.1`, cap `2.0`, twenty steps
from count zero for both the speed and the bulk bonus, and the capped
regime at count fifteen. -/
theorem capped_multiplier_witness :
    ((2 : ℚ) ≠ 0) ∧
    (∀ j : ℕ, j ≤ 20 → 0 < cappedMult (11 / 10) 2 (j : ℤ)) ∧
    ((0 : ℚ) < 1 * 1) ∧
    ((calculateCompoundingTime jsPowZero (some ⟨1, [speedMultBonus (11 / 10) 2]⟩) 0
        ((20 : ℕ) : ℤ) 1 1).finalRps * cappedMult (11 / 10) 2 0
      = (1 * 1) * cappedMult (11 / 10) 2 ((20 : ℕ) : ℤ)) ∧
    (cappedMult (11 / 10) 2 ((20 : ℕ) : ℤ) ≤ 2) ∧
    (cappedMult (11 / 10) 2 15 = 2 ∧ cappedMult (11 / 10) 2 (15 + 1) = 2) ∧
    (∀ s b : ℚ, applyBonus jsPowZero 15 (s, b) (speedMultBonus (11 / 10) 2) = (s, b)) ∧
    (∀ s b : ℚ, applyBonus jsPowZero 15 (s, b) (bulkMultBonus (11 / 10) 2) = (s, b)) ∧
    ((calculateCompoundingTime jsPowZero (some ⟨1, [bulkMultBonus (11 / 10) 2]⟩) 0
        ((20 : ℕ) : ℤ) 1 1).finalRps * cappedMult (11 / 10) 2 0
      = (1 * 1) * cappedMult (11 / 10) 2 ((20 : ℕ) : ℤ)) := by
  have hall : ∀ j : ℕ, j ≤ 20 → 0 < cappedMult (11 / 10) 2 (j : ℤ) := by
    intro j hj
    unfold cappedMult
    refine lt_min ?_ (by norm_num)
    have hj0 : (0 : ℚ) ≤ ((j : ℤ) : ℚ) := by positivity
    nlinarith
  have hmain := capped_multiplier jsPowZero (11 / 10) 2 (by norm_num)
  refine ⟨by norm_num, hall, by norm_num, ?_, ?_, ⟨by decide, by decide⟩, ?_, ?_, ?_⟩
  · exact (hmain.2.2.2.2.1 20 1 1 1 (by norm_num) hall).1
  · exact (hmain.2.2.2.2.1 20 1 1 1 (by norm_num) hall).2
  · exact fun s b => hmain.2.2.1 15 s b (by decide) (by decide)
  · exact fun s b => hmain.2.2.2.1 15 s b (by decide) (by decide)
  · exact (hmain.2.2.2.2.2 20 1 1 1 (by norm_num) hall).1

end RuneCalc
